import Mathlib

/-!
Shallow embedding of the BioActivityGraph chart engine (BioActivityGraph.js,
version 2.0 "Removed React", with the version 1.1 variant used where noted).
The embedding follows the JavaScript source: points are records of the fields
the loader creates plus the fields later mutated in place (x, y, color, shape),
JavaScript property values are modelled by `JSVal` so that the strict-equality
scan `Object.values(p).includes(key)` is faithful (a string key never equals a
number), the two classification tables are association lists with JavaScript
`Map` insertion-order semantics, and the fallible loader (which dereferences
`p.protein.organism.name`) returns `Except`.
-/

namespace BioActivity

/-- A JavaScript value as it can occur among the own-property values of a data
point: a string, a number, or `undefined` (used for absent or missing fields). -/
inductive JSVal where
  | str : String → JSVal
  | num : ℚ → JSVal
  | undef : JSVal
deriving DecidableEq, Repr

/-- A data point, as built by `loadData` and mutated in place by
`updatePointPositions` (x, y), `updatePointColors` (color) and
`updatePointShapes` (shape).  Fields that a freshly loaded point does not have
yet, or that may be `undefined` in JavaScript, are `Option`s. -/
structure Point where
  symbol : Option String
  primaryAccession : Option String
  organism : Option String
  value : ℚ
  type : String
  unit : Option String
  x : Option ℚ := none
  y : Option ℚ := none
  color : Option String := none
  shape : Option String := none
deriving DecidableEq, Repr

/-- Lift an optional string field to the JavaScript value it contributes to
`Object.values`. -/
def optVal (o : Option String) : JSVal := o.elim JSVal.undef JSVal.str

/-- Lift an optional numeric field to the JavaScript value it contributes to
`Object.values`. -/
def optNum (o : Option ℚ) : JSVal := o.elim JSVal.undef JSVal.num

/-- The own-property values of a point object, in property insertion order
(`Object.values(p)`): the six loader fields, then x, y (set by
`updatePointPositions`), then color and shape.  Absent properties are modelled
by `JSVal.undef`, which is never equal to a string or numeric key, exactly as
an absent property never matches in the JavaScript `includes` scan. -/
def jsValues (p : Point) : List JSVal :=
  [optVal p.symbol, optVal p.primaryAccession, optVal p.organism,
   JSVal.num p.value, JSVal.str p.type, optVal p.unit,
   optNum p.x, optNum p.y, optVal p.color, optVal p.shape]

/-- A classification table: an association list from match keys to visual
values, in JavaScript `Map` insertion order. -/
abbrev Table := List (String × String)

/-- `Map.prototype.get`: value of the first (unique) entry with the given key. -/
def mapGet (m : Table) (k : String) : Option String :=
  (m.find? (fun kv => kv.1 == k)).map (fun kv => kv.2)

/-- `Map.prototype.set`: overwrite in place (keeping the entry position) when
the key is present, append a new entry otherwise.  This is the whole of
`addRule` (`modalOK` does `this._colors.set(val, upd)`). -/
def mapSet (m : Table) (k v : String) : Table :=
  if m.any (fun kv => kv.1 == k) then
    m.map (fun kv => if kv.1 == k then (kv.1, v) else kv)
  else m ++ [(k, v)]

/-- `Map.prototype.delete`: remove the entry with the given key. -/
def mapDelete (m : Table) (k : String) : Table :=
  m.filter (fun kv => !(kv.1 == k))

/-- The rule-row close handler (updateTableColor / updateTableShape):
`if (this.dataset.key === "Default") return; table.delete(key)`. -/
def removeRule (m : Table) (k : String) : Table :=
  if k = "Default" then m else mapDelete m k

/-- Does a table entry match the point: is its key among the scanned values
(`Object.values(p).includes(c)`)? -/
def matchesValues (vals : List JSVal) (kv : String × String) : Bool :=
  vals.any (fun v => decide (v = JSVal.str kv.1))

/-- The key scan of updatePointColors / updatePointShapes: iterate the table
entries in insertion order, return the visual value of the first entry whose
match key occurs among the scanned point values. -/
def scanMap (table : Table) (vals : List JSVal) : Option String :=
  (table.find? (matchesValues vals)).map (fun kv => kv.2)

/-- The body of `updatePointColors` for one point (part_001 lines 374-383):
first `p.color = this._colors.get("Default")`, then the key scan over
`Object.values(p)` (which now contains the default color), overwriting
`p.color` when a key matches (the early-exit `some` loop is the first match,
`scanMap`; when no key matches the default color stays). -/
def assignColor (colors : Table) (p : Point) : Point :=
  let p0 : Point := { p with color := mapGet colors "Default" }
  { p0 with color := (scanMap colors (jsValues p0)).or p0.color }

/-- The body of `updatePointShapes` for one point (part_001 lines 412-421),
identical to `assignColor` with the shape table and the shape field. -/
def assignShape (shapes : Table) (p : Point) : Point :=
  let p0 : Point := { p with shape := mapGet shapes "Default" }
  { p0 with shape := (scanMap shapes (jsValues p0)).or p0.shape }

/-- `updatePointColors` over the whole data set. -/
def updatePointColors (colors : Table) (pts : List Point) : List Point :=
  pts.map (assignColor colors)

/-- `updatePointShapes` over the whole data set. -/
def updatePointShapes (shapes : Table) (pts : List Point) : List Point :=
  pts.map (assignShape shapes)

/-- The scanned values used by `assignColor` (point values after the default
color has been written). -/
def colorScanValues (colors : Table) (p : Point) : List JSVal :=
  jsValues { p with color := mapGet colors "Default" }

/-- The scanned values used by `assignShape`. -/
def shapeScanValues (shapes : Table) (p : Point) : List JSVal :=
  jsValues { p with shape := mapGet shapes "Default" }

/-! ## Data loader (loadData, part_001 lines 154-171) -/

/-- The organism sub-object of a protein descriptor; its `name` property may be
absent (`undefined`). -/
structure Organism where
  name : Option String
deriving DecidableEq, Repr

/-- A protein descriptor.  The `organism` property itself may be absent, in
which case `p.protein.organism.name` throws a TypeError in JavaScript. -/
structure Protein where
  symbol : Option String
  primaryAccession : Option String
  organism : Option Organism
deriving DecidableEq, Repr

/-- One activity record. -/
structure Activity where
  type : String
  conc : ℚ
  relation : Option String
  unit : Option String
deriving DecidableEq, Repr

/-- One element of the `targetProteins` input array. -/
structure ProteinRecord where
  protein : Protein
  activities : List Activity
deriving DecidableEq, Repr

/-- The point literal built inside `loadData` for one (protein, activity)
pair, given the already dereferenced organism object. -/
def mkPoint (pr : Protein) (o : Organism) (a : Activity) : Point :=
  { symbol := pr.symbol, primaryAccession := pr.primaryAccession,
    organism := o.name, value := a.conc, type := a.type, unit := a.unit }

/-- The body of the inner `forEach` of `loadData` for one activity: build the
point literal and push it.  Evaluating `p.protein.organism.name` with an
absent organism object throws a TypeError, modelled as `Except.error`. -/
def loadStep (prot : Protein) (acc : List Point) (a : Activity) :
    Except String (List Point) :=
  match prot.organism with
  | none => Except.error "TypeError: cannot read property name of undefined"
  | some o => Except.ok (acc ++ [mkPoint prot o a])

/-- `loadData` for a single protein record: the inner
`p.activities.forEach(a => points.push({... organism: p.protein.organism.name ...}))`.
The organism object is dereferenced once per activity, so a record with an
absent organism throws only when it has at least one activity. -/
def loadProtein (acc : List Point) (pr : ProteinRecord) : Except String (List Point) :=
  pr.activities.foldlM (loadStep pr.protein) acc

/-- `loadData(proteins)` (part_001): flatten the protein/activity tree into a
single list of points, in source iteration order; a thrown TypeError is
modelled as `Except.error`. -/
def loadData (proteins : List ProteinRecord) : Except String (List Point) :=
  proteins.foldlM loadProtein []

/-- Reference form of the loaded point used in the statement of the load
claims: the raw fields copied from the record, visual attributes unset. -/
def specPoint (pr : ProteinRecord) (a : Activity) : Point :=
  { symbol := pr.protein.symbol, primaryAccession := pr.protein.primaryAccession,
    organism := pr.protein.organism.bind (fun o => o.name),
    value := a.conc, type := a.type, unit := a.unit }

/-! ## Scale engine -/

/-- A d3 `scaleBand` as configured by `initXAxis`: domain of labels, range
endpoints, a single padding value (`padding(0.05)` sets both inner and outer
padding) and centre alignment. -/
structure BandScale where
  domain : List String
  r0 : ℚ
  r1 : ℚ
  padding : ℚ
  align : ℚ
deriving DecidableEq, Repr

/-- Number of bands. -/
def BandScale.n (s : BandScale) : ℚ := s.domain.length

/-- d3 scaleBand step:
`step = (stop - start) / max(1, n - paddingInner + paddingOuter * 2)`. -/
def BandScale.step (s : BandScale) : ℚ :=
  (s.r1 - s.r0) / max 1 (s.n - s.padding + 2 * s.padding)

/-- d3 scaleBand start:
`start += (stop - start - step * (n - paddingInner)) * align`. -/
def BandScale.start (s : BandScale) : ℚ :=
  s.r0 + (s.r1 - s.r0 - s.step * (s.n - s.padding)) * s.align

/-- d3 scaleBand bandwidth: `step * (1 - paddingInner)`. -/
def BandScale.bandwidth (s : BandScale) : ℚ :=
  s.step * (1 - s.padding)

/-- Applying the band scale to a label: the start position of its band,
`undefined` (`none`) for a label outside the domain. -/
def bandPos (s : BandScale) (t : String) : Option ℚ :=
  (s.domain.findIdx? (fun l => l == t)).map (fun i => s.start + s.step * i)

/-- The distinct activity types in first-seen order: the JavaScript
`reduce((p,c) => p.add(c.type), new Set())` of `initXAxis`. -/
def xLabels (pts : List Point) : List String :=
  pts.foldl (fun acc p => if p.type ∈ acc then acc else acc ++ [p.type]) []

/-- Inner plotting width: `width - margin.left - margin.right` = 400-40-40. -/
def graphWidth : ℚ := 400 - 40 - 40

/-- `initXAxis` (part_001): a band scale over the distinct activity types with
range `[0, 320]` and `padding(0.05)` (align defaults to 0.5). -/
def initXAxis (pts : List Point) : BandScale :=
  { domain := xLabels pts, r0 := 0, r1 := graphWidth, padding := 1/20, align := 1/2 }

/-- One step of the min/max reduce of `initYAxis`:
`p[0] = Math.min(c.value, p[0]); p[1] = Math.max(c.value, p[1])`. -/
def minmaxStep (acc : ℚ × ℚ) (q : Point) : ℚ × ℚ :=
  (min acc.1 q.value, max acc.2 q.value)

/-- The raw y-domain of `initYAxis`: the reduce computing
`[min, max]` of the concentration values, seeded with `[+Infinity, -Infinity]`
(modelled as `none` for an empty list; for a non-empty list the seed is
absorbed by the first element). -/
def yDomainRaw : List Point → Option (ℚ × ℚ)
  | [] => none
  | p :: ps => some (ps.foldl minmaxStep (p.value, p.value))

/-- d3 `scaleLog().nice()` on an ascending positive domain `[lo, hi]`: round
the endpoints outward to integer powers of ten,
`[10 ^ floor(log10 lo), 10 ^ ceil(log10 hi)]`.  No padding step precedes the
rounding. -/
def niceLog (lo hi : ℚ) : ℚ × ℚ :=
  ((10 : ℚ) ^ (Int.log 10 lo), (10 : ℚ) ^ (Int.clog 10 hi))

/-- The y-scale domain produced by `initYAxis` (part_001 lines 129-143):
min/max of the data then `nice()`. -/
def initYAxisDomain (pts : List Point) : Option (ℚ × ℚ) :=
  (yDomainRaw pts).map (fun d => niceLog d.1 d.2)

/-! ## Layout engine (updatePointPositions, part_001 lines 389-401) -/

/-- Position one point given the random draw `r` for it:
`dx = (jitter && violin) ? 2*xwidth - xwidth*r : jitter ? xwidth + xwidth*2*r : 2*xwidth`
with `xwidth = bandwidth/4`, then `d.x = X(d.type) + dx; d.y = Y(d.value)`.
The y scale is passed as an opaque function, as the claims only concern x. -/
def positionPoint (jitter violin : Bool) (s : BandScale) (Y : ℚ → ℚ) (r : ℚ)
    (d : Point) : Point :=
  let xwidth := s.bandwidth / 4
  let dx : ℚ :=
    if jitter && violin then 2 * xwidth - xwidth * r
    else if jitter then xwidth + xwidth * 2 * r
    else 2 * xwidth
  { d with x := (bandPos s d.type).map (fun b => b + dx), y := some (Y d.value) }

/-- Position a list of points, consuming one random draw per point
(`rand i` models the i-th call to `Math.random()`). -/
def positionList (jitter violin : Bool) (s : BandScale) (Y : ℚ → ℚ)
    (rand : ℕ → ℚ) : ℕ → List Point → List Point
  | _, [] => []
  | i, d :: ds =>
    positionPoint jitter violin s Y (rand i) d ::
      positionList jitter violin s Y rand (i + 1) ds

/-- `updatePointPositions`: map every point to its display position. -/
def updatePointPositions (jitter violin : Bool) (s : BandScale) (Y : ℚ → ℚ)
    (rand : ℕ → ℚ) (pts : List Point) : List Point :=
  positionList jitter violin s Y rand 0 pts

/-! ## Binning engine (initHistogramBins, part_001 lines 88-106) -/

/-- d3 `bin()` removes thresholds outside the domain: leading thresholds
`<= x0` and trailing thresholds `> x1` (for the sorted tick lists produced by
`scale.ticks` this is the entries with `x0 < t <= x1`). -/
def trimThresholds (x0 x1 : ℚ) (tz : List ℚ) : List ℚ :=
  tz.filter (fun t => decide (x0 < t) && decide (t ≤ x1))

/-- d3 bin assignment: `bisectRight(tz, x)`, the number of thresholds `<= x`. -/
def binIndex (tz : List ℚ) (v : ℚ) : ℕ :=
  tz.countP (fun t => decide (t ≤ v))

/-- Membership of a value in bucket `i`: the value lies inside the domain
(values outside `[x0, x1]` are ignored) and bisects to index `i`. -/
def inBin (x0 x1 : ℚ) (tz : List ℚ) (i : ℕ) (v : ℚ) : Bool :=
  decide (x0 ≤ v) && decide (v ≤ x1) && (binIndex tz v == i)

/-- d3 `bin()` over one group of values: `m+1` buckets for `m` (trimmed)
thresholds; bucket `i` spans `[tz[i-1], tz[i]]` (domain endpoints at the
edges) and holds the values assigned to it, in input order. -/
def binsFor (x0 x1 : ℚ) (tz : List ℚ) (vals : List ℚ) : List (ℚ × ℚ × List ℚ) :=
  let tz1 := trimThresholds x0 x1 tz
  (List.range (tz1.length + 1)).map (fun i =>
    (if i = 0 then x0 else tz1.getD (i - 1) x0,
     if i < tz1.length then tz1.getD i x1 else x1,
     vals.filter (inBin x0 x1 tz1 i)))

/-- The concentration values of the points of one activity type, in data
order (the group that `d3.rollup` hands to the histogram). -/
def valuesOfType (pts : List Point) (t : String) : List ℚ :=
  (pts.filter (fun p => p.type == t)).map (fun p => p.value)

/-- `initHistogramBins`: group the data by activity type (first-seen order,
as `d3.rollup` does) and bin each group's values against the y-scale domain
`[x0, x1]` with threshold list `tz` (`yScale.ticks(nBins)`). -/
def initHistogramBins (pts : List Point) (x0 x1 : ℚ) (tz : List ℚ) :
    List (String × List (ℚ × ℚ × List ℚ)) :=
  (xLabels pts).map (fun t => (t, binsFor x0 x1 tz (valuesOfType pts t)))

/-! ## Shared sample data for witnesses -/

/-- A sample loaded point (all loader fields present). -/
def samplePoint (v : ℚ) (t : String) : Point :=
  { symbol := some "ABC1", primaryAccession := some "P12345",
    organism := some "Homo sapiens", value := v, type := t, unit := some "nM" }

/-- A sample protein descriptor with an organism object. -/
def sampleProtein : Protein :=
  { symbol := some "ABC1", primaryAccession := some "P12345",
    organism := some { name := some "Homo sapiens" } }

/-! ## Helper lemmas -/

theorem mapGet_isSome_iff (m : Table) (k : String) :
    (mapGet m k).isSome ↔ ∃ e ∈ m, e.1 = k := by
  unfold mapGet
  cases h : m.find? (fun kv => kv.1 == k) with
  | none =>
    simp only [Option.map_none', Option.isSome_none, Bool.false_eq_true, false_iff]
    rintro ⟨e, he, hk⟩
    have := List.find?_eq_none.mp h e he
    simp [hk] at this
  | some e =>
    simp only [Option.map_some', Option.isSome_some, true_iff]
    refine ⟨e, List.mem_of_find?_eq_some h, ?_⟩
    have := List.find?_some h
    simpa using this

theorem mem_mapSet_of_mem (m : Table) (k v : String) (e : String × String)
    (he : e ∈ m) : ∃ e2 ∈ mapSet m k v, e2.1 = e.1 := by
  unfold mapSet
  by_cases h : m.any (fun kv => kv.1 == k)
  · rw [if_pos h]
    refine ⟨if e.1 == k then (e.1, v) else e, List.mem_map_of_mem _ he, ?_⟩
    by_cases hk : (e.1 == k) = true
    · simp [hk]
    · simp [hk]
  · rw [if_neg h]
    exact ⟨e, List.mem_append_left _ he, rfl⟩

/-- C2: removing the entry keyed "Default" from a classification table is a
silent no-op (the handler returns before calling `Map.delete`): the table is
unchanged, hence its size and the value of the "Default" entry are unchanged;
and both table edits, `Map.set` (adding a rule) and the guarded removal,
preserve the presence of the "Default" entry. -/
theorem C2_remove_default_noop (m : Table) (k v : String)
    (hd : (mapGet m "Default").isSome) :
    removeRule m "Default" = m ∧
    (removeRule m "Default").length = m.length ∧
    mapGet (removeRule m "Default") "Default" = mapGet m "Default" ∧
    (mapGet (mapSet m k v) "Default").isSome ∧
    (mapGet (removeRule m k) "Default").isSome := by
  have h1 : removeRule m "Default" = m := if_pos rfl
  refine ⟨h1, by rw [h1], by rw [h1], ?_, ?_⟩
  · obtain ⟨e, he, hk⟩ := (mapGet_isSome_iff m "Default").mp hd
    obtain ⟨e2, he2, hk2⟩ := mem_mapSet_of_mem m k v e he
    exact (mapGet_isSome_iff _ "Default").mpr ⟨e2, he2, hk2.trans hk⟩
  · unfold removeRule
    by_cases hk : k = "Default"
    · rw [if_pos hk]; exact hd
    · rw [if_neg hk]
      obtain ⟨e, he, hke⟩ := (mapGet_isSome_iff m "Default").mp hd
      refine (mapGet_isSome_iff _ "Default").mpr ⟨e, ?_, hke⟩
      refine List.mem_filter.mpr ⟨he, ?_⟩
      simp only [hke, Bool.not_eq_true', beq_eq_false_iff_ne, ne_eq]
      exact fun h => hk h.symm

/-- C2 witness at a concrete table. -/
theorem C2_remove_default_noop_witness :
    (mapGet [("Default", "#C0C0C0")] "Default").isSome ∧
    (removeRule [("Default", "#C0C0C0")] "Default" = [("Default", "#C0C0C0")] ∧
     (removeRule [("Default", "#C0C0C0")] "Default").length =
       ([("Default", "#C0C0C0")] : Table).length ∧
     mapGet (removeRule [("Default", "#C0C0C0")] "Default") "Default" =
       mapGet [("Default", "#C0C0C0")] "Default" ∧
     (mapGet (mapSet [("Default", "#C0C0C0")] "IC50" "#FF0000") "Default").isSome ∧
     (mapGet (removeRule [("Default", "#C0C0C0")] "IC50") "Default").isSome) :=
  ⟨by decide, C2_remove_default_noop [("Default", "#C0C0C0")] "IC50" "#FF0000" (by decide)⟩

theorem or_isSome_right (o1 o2 : Option String) (h : o2.isSome) :
    (o1.or o2).isSome := by
  cases o1 <;> simp [Option.or, h]

theorem assignColor_color (colors : Table) (p : Point) :
    (assignColor colors p).color =
      (scanMap colors (colorScanValues colors p)).or (mapGet colors "Default") := rfl

theorem assignShape_shape (shapes : Table) (p : Point) :
    (assignShape shapes p).shape =
      (scanMap shapes (shapeScanValues shapes p)).or (mapGet shapes "Default") := rfl

theorem assignColor_color_isSome (colors : Table) (p : Point)
    (hd : (mapGet colors "Default").isSome) :
    (assignColor colors p).color.isSome := by
  rw [assignColor_color]
  exact or_isSome_right _ _ hd

theorem assignShape_shape_isSome (shapes : Table) (p : Point)
    (hd : (mapGet shapes "Default").isSome) :
    (assignShape shapes p).shape.isSome := by
  rw [assignShape_shape]
  exact or_isSome_right _ _ hd

theorem assignShape_color (shapes : Table) (p : Point) :
    (assignShape shapes p).color = p.color := rfl

/-- C3: for every non-empty point set and any state of the two classification
tables that contain their "Default" entry, after `updatePointColors` and
`updatePointShapes` run, every point has a defined (non-undefined) color and a
defined shape. -/
theorem C3_visuals_resolved (colors shapes : Table) (pts : List Point)
    (hc : (mapGet colors "Default").isSome)
    (hs : (mapGet shapes "Default").isSome)
    (_hne : pts ≠ []) :
    ∀ p ∈ updatePointShapes shapes (updatePointColors colors pts),
      p.color.isSome ∧ p.shape.isSome := by
  intro p hp
  unfold updatePointShapes updatePointColors at hp
  obtain ⟨q1, hq1, rfl⟩ := List.mem_map.mp hp
  obtain ⟨q, _, rfl⟩ := List.mem_map.mp hq1
  refine ⟨?_, assignShape_shape_isSome shapes _ hs⟩
  rw [assignShape_color]
  exact assignColor_color_isSome colors _ hc

/-- C3 witness at a concrete point set and the initial tables. -/
theorem C3_visuals_resolved_witness :
    (mapGet [("Default", "#C0C0C0")] "Default").isSome ∧
    (mapGet [("Default", "Circle")] "Default").isSome ∧
    [samplePoint 5 "IC50"] ≠ [] ∧
    ∀ p ∈ updatePointShapes [("Default", "Circle")]
        (updatePointColors [("Default", "#C0C0C0")] [samplePoint 5 "IC50"]),
      p.color.isSome ∧ p.shape.isSome :=
  ⟨by decide, by decide, by decide,
   C3_visuals_resolved [("Default", "#C0C0C0")] [("Default", "Circle")]
     [samplePoint 5 "IC50"] (by decide) (by decide) (by decide)⟩

/-- C10: the classification scan compares match keys against every
own-property value of the point object, not only the four descriptive string
attributes.  Concretely: (1) a color rule whose match key is the default color
string "#C0C0C0" matches a point none of whose symbol / accession / organism /
type equals that key, because the scan sees the color property that was just
set to the default; (2) a color rule keyed by a shape name ("Circle") matches
a point via its previously assigned shape property; (3) the reserved key
"Default" itself participates in the scan: a point whose symbol is the string
"Default" is captured by the first ("Default") entry even though a later rule
also matches its type; and (4) the numeric value property is among the scanned
values. -/
theorem C10_scan_all_own_properties :
    ((assignColor (mapSet [("Default", "#C0C0C0")] "#C0C0C0" "#FF0000")
        (samplePoint 5 "IC50")).color = some "#FF0000" ∧
      (samplePoint 5 "IC50").symbol ≠ some "#C0C0C0" ∧
      (samplePoint 5 "IC50").primaryAccession ≠ some "#C0C0C0" ∧
      (samplePoint 5 "IC50").organism ≠ some "#C0C0C0" ∧
      (samplePoint 5 "IC50").type ≠ "#C0C0C0") ∧
    ((assignColor (mapSet [("Default", "#C0C0C0")] "Circle" "#00FF00")
        { samplePoint 5 "IC50" with shape := some "Circle" }).color = some "#00FF00" ∧
      (samplePoint 5 "IC50").type ≠ "Circle") ∧
    (assignColor (mapSet [("Default", "#C0C0C0")] "IC50" "#0000FF")
        { samplePoint 5 "IC50" with symbol := some "Default" }).color =
      some "#C0C0C0" ∧
    JSVal.num (samplePoint 5 "IC50").value ∈ jsValues (samplePoint 5 "IC50") := by
  decide

/-! ## Loader claims -/

/-- A sample activity record. -/
def sampleActivity : Activity :=
  { type := "IC50", conc := 5, relation := some "=", unit := some "nM" }

/-- The point list the loader is specified to produce: one point per
(protein, activity) pair, proteins outer, activities inner, raw fields
copied, visual attributes unset. -/
def loadedPoints (proteins : List ProteinRecord) : List Point :=
  (proteins.map (fun pr => pr.activities.map (specPoint pr))).flatten

theorem mkPoint_eq_specPoint (pr : ProteinRecord) (o : Organism)
    (ho : pr.protein.organism = some o) (a : Activity) :
    mkPoint pr.protein o a = specPoint pr a := by
  simp [mkPoint, specPoint, ho]

theorem loadProtein_ok (pr : ProteinRecord) (o : Organism)
    (ho : pr.protein.organism = some o) :
    ∀ acc, loadProtein acc pr = Except.ok (acc ++ pr.activities.map (specPoint pr)) := by
  unfold loadProtein
  induction pr.activities with
  | nil => intro acc; simp only [List.foldlM_nil, List.append_nil, List.map_nil]; rfl
  | cons a l ih =>
    intro acc
    rw [List.foldlM_cons]
    have hstep : loadStep pr.protein acc a = Except.ok (acc ++ [mkPoint pr.protein o a]) := by
      simp [loadStep, ho]
    rw [hstep]
    show l.foldlM (loadStep pr.protein) (acc ++ [mkPoint pr.protein o a]) = _
    rw [ih (acc ++ [mkPoint pr.protein o a])]
    simp [mkPoint_eq_specPoint pr o ho]

theorem loadData_ok (proteins : List ProteinRecord)
    (horg : ∀ pr ∈ proteins, pr.protein.organism.isSome) :
    ∀ acc, proteins.foldlM loadProtein acc = Except.ok (acc ++ loadedPoints proteins) := by
  induction proteins with
  | nil => intro acc; simp only [List.foldlM_nil, loadedPoints, List.map_nil,
      List.flatten_nil, List.append_nil]; rfl
  | cons pr rest ih =>
    intro acc
    obtain ⟨o, ho⟩ := Option.isSome_iff_exists.mp (horg pr (List.mem_cons_self pr rest))
    rw [List.foldlM_cons, loadProtein_ok pr o ho acc]
    show rest.foldlM loadProtein (acc ++ pr.activities.map (specPoint pr)) = _
    rw [ih (fun q hq => horg q (List.mem_cons_of_mem pr hq))]
    simp [loadedPoints, List.append_assoc]

/-- C4 counterexample: the claim "load returns an empty PointSet only if the
input sequence itself is empty" fails: a non-empty protein list whose only
record has an empty activities list loads to the empty point list. -/
theorem C4_counterexample :
    loadData [{ protein := sampleProtein, activities := [] }] = Except.ok [] ∧
    ([{ protein := sampleProtein, activities := [] }] : List ProteinRecord) ≠ [] := by
  exact ⟨rfl, by simp⟩

/-- C4 (amended): for records whose organism object is present, `loadData`
produces exactly one point per (protein, activity) pair, in source iteration
order (proteins outer, activities inner), with the raw fields copied and
color/shape/x/y left unset; and the result is empty if and only if the input
contains no (protein, activity) pair, i.e. every record's activities list is
empty (not only when the input sequence itself is empty). -/
theorem C4_load_structure (proteins : List ProteinRecord)
    (horg : ∀ pr ∈ proteins, pr.protein.organism.isSome) :
    loadData proteins = Except.ok (loadedPoints proteins) ∧
    (∀ p ∈ loadedPoints proteins,
       p.color = none ∧ p.shape = none ∧ p.x = none ∧ p.y = none) ∧
    (loadedPoints proteins = [] ↔ ∀ pr ∈ proteins, pr.activities = []) := by
  refine ⟨by simpa using loadData_ok proteins horg [], ?_, ?_⟩
  · intro p hp
    obtain ⟨s, hs, hps⟩ := List.mem_flatten.mp hp
    obtain ⟨pr, _, rfl⟩ := List.mem_map.mp hs
    obtain ⟨a, _, rfl⟩ := List.mem_map.mp hps
    simp [specPoint]
  · unfold loadedPoints
    rw [List.flatten_eq_nil_iff]
    constructor
    · intro h pr hpr
      have := h (pr.activities.map (specPoint pr)) (List.mem_map_of_mem _ hpr)
      simpa using this
    · rintro h s hs
      obtain ⟨pr, hpr, rfl⟩ := List.mem_map.mp hs
      simp [h pr hpr]

/-- C4 witness at a concrete input with one protein and one activity. -/
theorem C4_load_structure_witness :
    (∀ pr ∈ ([{ protein := sampleProtein, activities := [sampleActivity] }] :
        List ProteinRecord),
       pr.protein.organism.isSome) ∧
    (loadData [{ protein := sampleProtein, activities := [sampleActivity] }] =
       Except.ok (loadedPoints [{ protein := sampleProtein, activities := [sampleActivity] }]) ∧
     (∀ p ∈ loadedPoints [{ protein := sampleProtein, activities := [sampleActivity] }],
        p.color = none ∧ p.shape = none ∧ p.x = none ∧ p.y = none) ∧
     (loadedPoints [{ protein := sampleProtein, activities := [sampleActivity] }] = [] ↔
        ∀ pr ∈ ([{ protein := sampleProtein, activities := [sampleActivity] }] :
            List ProteinRecord),
          pr.activities = [])) :=
  ⟨by decide,
   C4_load_structure [{ protein := sampleProtein, activities := [sampleActivity] }] (by decide)⟩

/-- C5 counterexample: the claim that a record whose protein descriptor lacks
an organism is tolerated fails for the version 2.0 loader: dereferencing
`p.protein.organism.name` throws a TypeError when the record has at least one
activity, so no point is produced. -/
theorem C5_counterexample :
    loadData [{ protein := { symbol := some "ABC1", primaryAccession := some "P12345",
                             organism := none },
                activities := [sampleActivity] }] =
      Except.error "TypeError: cannot read property name of undefined" := rfl

/-- C5 (amended): a missing organism *name* (organism object present but
without a name) and a missing unit are tolerated as undefined display text —
the point is still produced with those fields undefined, and loading a list of
records whose organism objects are all present never fails; but a record
lacking the organism *object* itself makes the loader throw (see the
counterexample). -/
theorem C5_missing_fields_tolerated (proteins : List ProteinRecord)
    (horg : ∀ pr ∈ proteins, pr.protein.organism.isSome) :
    (∃ pts, loadData proteins = Except.ok pts) ∧
    loadData [{ protein := { symbol := some "ABC1", primaryAccession := some "P12345",
                             organism := some { name := none } },
                activities := [{ type := "IC50", conc := 5, relation := some "=",
                                 unit := none }] }] =
      Except.ok [{ symbol := some "ABC1", primaryAccession := some "P12345",
                   organism := none, value := 5, type := "IC50", unit := none }] := by
  refine ⟨⟨loadedPoints proteins, ?_⟩, rfl⟩
  simpa using loadData_ok proteins horg []

/-- C5 witness: the toleration theorem applied to a concrete record list. -/
theorem C5_missing_fields_tolerated_witness :
    (∀ pr ∈ ([{ protein := sampleProtein, activities := [sampleActivity] }] :
        List ProteinRecord),
       pr.protein.organism.isSome) ∧
    ((∃ pts, loadData [{ protein := sampleProtein, activities := [sampleActivity] }] =
        Except.ok pts) ∧
     loadData [{ protein := { symbol := some "ABC1", primaryAccession := some "P12345",
                              organism := some { name := none } },
                 activities := [{ type := "IC50", conc := 5, relation := some "=",
                                  unit := none }] }] =
       Except.ok [{ symbol := some "ABC1", primaryAccession := some "P12345",
                    organism := none, value := 5, type := "IC50", unit := none }]) :=
  ⟨by decide,
   C5_missing_fields_tolerated [{ protein := sampleProtein, activities := [sampleActivity] }]
     (by decide)⟩

/-! ## Scale engine claims -/

theorem yDomainRaw_const (v : ℚ) (pts : List Point)
    (hall : ∀ p ∈ pts, p.value = v) (hne : pts ≠ []) :
    yDomainRaw pts = some (v, v) := by
  match pts, hne with
  | p :: ps, _ =>
    have hp : p.value = v := hall p (List.mem_cons_self p ps)
    have haux : ∀ (l : List Point), (∀ q ∈ l, q.value = v) →
        l.foldl minmaxStep (v, v) = (v, v) := by
      intro l
      induction l with
      | nil => intro _; rfl
      | cons q l2 ih =>
        intro h
        have hq : q.value = v := h q (List.mem_cons_self q l2)
        simp only [List.foldl_cons, minmaxStep, hq, min_self, max_self]
        exact ih (fun r hr => h r (List.mem_cons_of_mem q hr))
    show some _ = _
    rw [hp, haux ps (fun q hq => hall q (List.mem_cons_of_mem p hq))]

theorem qlog_zpow (e : ℤ) : Int.log 10 ((10 : ℚ) ^ e) = e := by
  conv_lhs => rw [show (10 : ℚ) = ((10 : ℕ) : ℚ) from by norm_num]
  exact Int.log_zpow (by norm_num) e

theorem qclog_zpow (e : ℤ) : Int.clog 10 ((10 : ℚ) ^ e) = e := by
  conv_lhs => rw [show (10 : ℚ) = ((10 : ℕ) : ℚ) from by norm_num]
  exact Int.clog_zpow (by norm_num) e

theorem qzpow_log_le (v : ℚ) (hv : 0 < v) : (10 : ℚ) ^ (Int.log 10 v) ≤ v := by
  have h := Int.zpow_log_le_self (show 1 < 10 by norm_num) hv
  simpa using h

theorem qle_zpow_clog (v : ℚ) : v ≤ (10 : ℚ) ^ (Int.clog 10 v) := by
  have h := Int.self_le_zpow_clog (show 1 < 10 by norm_num) v
  simpa using h

/-- C6 counterexample: for a point set whose single concentration value is 10,
`initYAxis` produces the degenerate domain [10, 10]: `nice()` rounds the two
equal endpoints to the same power of ten and no symmetric log-space padding is
applied, so the resulting domain is collapsed, contrary to the claim. -/
theorem C6_counterexample :
    initYAxisDomain [samplePoint 10 "IC50"] = some (10, 10) := by
  have h1 : yDomainRaw [samplePoint 10 "IC50"] = some (10, 10) := rfl
  have hlog : Int.log 10 ((10 : ℚ)) = 1 := by
    have := qlog_zpow 1
    simpa using this
  have hclog : Int.clog 10 ((10 : ℚ)) = 1 := by
    have := qclog_zpow 1
    simpa using this
  unfold initYAxisDomain
  rw [h1, Option.map_some']
  show some (niceLog 10 10) = some (10, 10)
  unfold niceLog
  rw [hlog, hclog]
  norm_num

/-- C6 (amended): for a point set all of whose points carry the single
positive concentration value v, `initYAxis` applies `nice()` rounding to the
degenerate raw domain [v, v] with no preceding padding step: the domain
becomes [10 ^ floor(log10 v), 10 ^ ceil(log10 v)].  This interval contains v
and is non-collapsed when v is not an integer power of ten, but when v is an
integer power of ten both endpoints equal v and the domain remains the
degenerate [v, v]. -/
theorem C6_single_value_domain (pts : List Point) (v : ℚ)
    (hv : 0 < v) (hne : pts ≠ []) (hall : ∀ p ∈ pts, p.value = v) :
    initYAxisDomain pts =
      some ((10 : ℚ) ^ (Int.log 10 v), (10 : ℚ) ^ (Int.clog 10 v)) ∧
    (10 : ℚ) ^ (Int.log 10 v) ≤ v ∧
    v ≤ (10 : ℚ) ^ (Int.clog 10 v) ∧
    ((¬ ∃ e : ℤ, v = (10 : ℚ) ^ e) →
      (10 : ℚ) ^ (Int.log 10 v) < (10 : ℚ) ^ (Int.clog 10 v)) ∧
    ((∃ e : ℤ, v = (10 : ℚ) ^ e) →
      (10 : ℚ) ^ (Int.log 10 v) = v ∧ (10 : ℚ) ^ (Int.clog 10 v) = v) := by
  have hyd := yDomainRaw_const v pts hall hne
  have hlow := qzpow_log_le v hv
  have hhigh := qle_zpow_clog v
  refine ⟨by simp [initYAxisDomain, hyd, niceLog], hlow, hhigh, ?_, ?_⟩
  · intro hnp
    have hle : Int.log 10 v ≤ Int.clog 10 v :=
      (zpow_le_zpow_iff_right₀ (show (1:ℚ) < 10 by norm_num)).mp (le_trans hlow hhigh)
    rcases lt_or_eq_of_le hle with hlt | heq
    · exact zpow_lt_zpow_right₀ (by norm_num) hlt
    · refine absurd ⟨Int.log 10 v, le_antisymm ?_ hlow⟩ hnp
      rw [heq]
      exact hhigh
  · rintro ⟨e, rfl⟩
    rw [qlog_zpow, qclog_zpow]
    exact ⟨rfl, rfl⟩

/-- C6 witness at the single concentration value 5 (where the nice domain is
non-collapsed). -/
theorem C6_single_value_domain_witness :
    ((0 : ℚ) < 5 ∧ [samplePoint 5 "IC50"] ≠ [] ∧
      ∀ p ∈ [samplePoint 5 "IC50"], p.value = 5) ∧
    (initYAxisDomain [samplePoint 5 "IC50"] =
       some ((10 : ℚ) ^ (Int.log 10 (5 : ℚ)), (10 : ℚ) ^ (Int.clog 10 (5 : ℚ))) ∧
     (10 : ℚ) ^ (Int.log 10 (5 : ℚ)) ≤ 5 ∧
     (5 : ℚ) ≤ (10 : ℚ) ^ (Int.clog 10 (5 : ℚ)) ∧
     ((¬ ∃ e : ℤ, (5 : ℚ) = (10 : ℚ) ^ e) →
       (10 : ℚ) ^ (Int.log 10 (5 : ℚ)) < (10 : ℚ) ^ (Int.clog 10 (5 : ℚ))) ∧
     ((∃ e : ℤ, (5 : ℚ) = (10 : ℚ) ^ e) →
       (10 : ℚ) ^ (Int.log 10 (5 : ℚ)) = 5 ∧ (10 : ℚ) ^ (Int.clog 10 (5 : ℚ)) = 5)) :=
  ⟨⟨by norm_num, by simp, by decide⟩,
   C6_single_value_domain [samplePoint 5 "IC50"] 5 (by norm_num) (by simp) (by decide)⟩

/-! ## Layout engine claims -/

theorem xLabels_acc_mono (l : List Point) :
    ∀ (acc : List String) (t : String), t ∈ acc →
      t ∈ l.foldl (fun acc p => if p.type ∈ acc then acc else acc ++ [p.type]) acc := by
  induction l with
  | nil => intro acc t ht; exact ht
  | cons q rest ih =>
    intro acc t ht
    simp only [List.foldl_cons]
    apply ih
    by_cases hq : q.type ∈ acc
    · rw [if_pos hq]; exact ht
    · rw [if_neg hq]; exact List.mem_append_left _ ht

theorem type_mem_xLabels (pts : List Point) (p : Point) (hp : p ∈ pts) :
    p.type ∈ xLabels pts := by
  unfold xLabels
  have haux : ∀ (l : List Point) (acc : List String) (q : Point), q ∈ l →
      q.type ∈ l.foldl (fun acc p => if p.type ∈ acc then acc else acc ++ [p.type]) acc := by
    intro l
    induction l with
    | nil => intro acc q hq; cases hq
    | cons r rest ih =>
      intro acc q hq
      rcases List.mem_cons.mp hq with rfl | hq2
      · simp only [List.foldl_cons]
        apply xLabels_acc_mono
        by_cases hr : q.type ∈ acc
        · rw [if_pos hr]; exact hr
        · rw [if_neg hr]; exact List.mem_append_right _ (List.mem_singleton_self _)
      · simp only [List.foldl_cons]
        exact ih _ q hq2
  exact haux pts [] p hp

theorem bandPos_isSome (s : BandScale) (t : String) (ht : t ∈ s.domain) :
    ∃ b, bandPos s t = some b := by
  unfold bandPos
  have haux : ∀ (l : List String), t ∈ l → ∃ i, l.findIdx? (fun x => x == t) = some i := by
    intro l
    induction l with
    | nil => intro h; cases h
    | cons a l2 ih =>
      intro h
      by_cases ha : (a == t) = true
      · exact ⟨0, by simp [List.findIdx?_cons, ha]⟩
      · rcases List.mem_cons.mp h with rfl | h2
        · exact absurd (beq_self_eq_true t) ha
        · obtain ⟨i, hi⟩ := ih h2
          exact ⟨i + 1, by simp [List.findIdx?_cons, ha, hi]⟩
  obtain ⟨i, hi⟩ := haux s.domain ht
  exact ⟨s.start + s.step * i, by rw [hi]; rfl⟩

theorem initXAxis_bandwidth_pos (pts : List Point) :
    0 < (initXAxis pts).bandwidth := by
  unfold initXAxis BandScale.bandwidth BandScale.step BandScale.n graphWidth
  have hmax : (0 : ℚ) < max 1 (((xLabels pts).length : ℚ) - 1/20 + 2 * (1/20)) :=
    lt_of_lt_of_le one_pos (le_max_left _ _)
  have hstep : (0 : ℚ) < (400 - 40 - 40 - 0) / max 1 (((xLabels pts).length : ℚ) - 1/20 + 2 * (1/20)) :=
    div_pos (by norm_num) hmax
  calc (0 : ℚ) < ((400 - 40 - 40 : ℚ) - 0) / max 1 (((xLabels pts).length : ℚ) - 1/20 + 2 * (1/20)) * (1 - 1/20) := by
        refine mul_pos ?_ (by norm_num)
        exact div_pos (by norm_num) hmax
    _ = _ := by norm_num

theorem positionList_getElem? (jitter violin : Bool) (s : BandScale) (Y : ℚ → ℚ)
    (rand : ℕ → ℚ) :
    ∀ (l : List Point) (n i : ℕ),
      (positionList jitter violin s Y rand n l)[i]? =
        (l[i]?).map (fun d => positionPoint jitter violin s Y (rand (n + i)) d) := by
  intro l
  induction l with
  | nil => intro n i; simp [positionList]
  | cons d ds ih =>
    intro n i
    cases i with
    | zero => simp [positionList]
    | succ j =>
      have hstep : positionList jitter violin s Y rand n (d :: ds) =
          positionPoint jitter violin s Y (rand n) d ::
            positionList jitter violin s Y rand (n + 1) ds := rfl
      rw [hstep, List.getElem?_cons_succ, List.getElem?_cons_succ, ih (n + 1) j,
        show n + 1 + j = n + (j + 1) from by omega]

theorem mem_positionList (jitter violin : Bool) (s : BandScale) (Y : ℚ → ℚ)
    (rand : ℕ → ℚ) :
    ∀ (l : List Point) (n : ℕ) (p : Point),
      p ∈ positionList jitter violin s Y rand n l →
      ∃ d ∈ l, ∃ m, p = positionPoint jitter violin s Y (rand m) d := by
  intro l
  induction l with
  | nil => intro n p hp; cases hp
  | cons d ds ih =>
    intro n p hp
    rcases List.mem_cons.mp hp with rfl | hp2
    · exact ⟨d, List.mem_cons_self d ds, n, rfl⟩
    · obtain ⟨d2, hd2, m, hm⟩ := ih (n + 1) p hp2
      exact ⟨d2, List.mem_cons_of_mem d hd2, m, hm⟩

theorem positionPoint_no_jitter (s : BandScale) (Y : ℚ → ℚ) (r : ℚ) (d : Point) :
    positionPoint false false s Y r d =
      { d with x := (bandPos s d.type).map (fun b => b + s.bandwidth / 2),
               y := some (Y d.value) } := by
  unfold positionPoint
  simp only [Bool.false_and, Bool.false_eq_true, if_false]
  have : 2 * (s.bandwidth / 4) = s.bandwidth / 2 := by ring
  rw [this]

/-- C8: with jitter and violin both disabled, every point is placed at the
horizontal center of its activity-type band (band start plus half the
bandwidth), so any two points sharing an activityType receive an identical x
coordinate. -/
theorem C8_no_jitter_band_center (pts : List Point) (Y : ℚ → ℚ) (rand : ℕ → ℚ) :
    (∀ p ∈ updatePointPositions false false (initXAxis pts) Y rand pts,
       ∃ b, bandPos (initXAxis pts) p.type = some b ∧
         p.x = some (b + (initXAxis pts).bandwidth / 2)) ∧
    (∀ p ∈ updatePointPositions false false (initXAxis pts) Y rand pts,
      ∀ q ∈ updatePointPositions false false (initXAxis pts) Y rand pts,
        p.type = q.type → p.x = q.x) := by
  have h1 : ∀ p ∈ updatePointPositions false false (initXAxis pts) Y rand pts,
      ∃ b, bandPos (initXAxis pts) p.type = some b ∧
        p.x = some (b + (initXAxis pts).bandwidth / 2) := by
    intro p hp
    obtain ⟨d, hd, m, rfl⟩ :=
      mem_positionList false false (initXAxis pts) Y rand pts 0 p hp
    obtain ⟨b, hb⟩ := bandPos_isSome (initXAxis pts) d.type (type_mem_xLabels pts d hd)
    rw [positionPoint_no_jitter]
    exact ⟨b, hb, by rw [hb]; rfl⟩
  refine ⟨h1, ?_⟩
  intro p hp q hq htype
  obtain ⟨b, hb, hx⟩ := h1 p hp
  obtain ⟨b2, hb2, hx2⟩ := h1 q hq
  rw [htype] at hb
  rw [hb] at hb2
  cases hb2
  rw [hx, hx2]

/-- C8 witness at a concrete one-point data set. -/
theorem C8_no_jitter_band_center_witness :
    (positionPoint false false (initXAxis [samplePoint 5 "IC50"]) (fun q => q)
        ((fun _ => (1 : ℚ)/2) 0) (samplePoint 5 "IC50")) ∈
      updatePointPositions false false (initXAxis [samplePoint 5 "IC50"]) (fun q => q)
        (fun _ => (1 : ℚ)/2) [samplePoint 5 "IC50"] ∧
    ∃ b, bandPos (initXAxis [samplePoint 5 "IC50"])
        (positionPoint false false (initXAxis [samplePoint 5 "IC50"]) (fun q => q)
          ((fun _ => (1 : ℚ)/2) 0) (samplePoint 5 "IC50")).type = some b ∧
      (positionPoint false false (initXAxis [samplePoint 5 "IC50"]) (fun q => q)
          ((fun _ => (1 : ℚ)/2) 0) (samplePoint 5 "IC50")).x =
        some (b + (initXAxis [samplePoint 5 "IC50"]).bandwidth / 2) :=
  ⟨List.mem_cons_self _ _,
   (C8_no_jitter_band_center [samplePoint 5 "IC50"] (fun q => q) (fun _ => (1 : ℚ)/2)).1
     _ (List.mem_cons_self _ _)⟩

/-- C9: with jitter enabled and violin disabled, the i-th point's x offset
from the start of its activity-type band is `bandwidth/4 + (bandwidth/2) * r`,
where r is the i-th random draw — an order-preserving affine image of the
uniform draw from [0,1) onto an interval of width bandwidth/2 (half the band
width), taken independently per point — and the offset lies strictly between
0 and the bandwidth, so the point stays strictly inside its band. -/
theorem C9_jitter_half_band (pts : List Point) (Y : ℚ → ℚ) (rand : ℕ → ℚ)
    (hr : ∀ n, 0 ≤ rand n ∧ rand n < 1) (i : ℕ) (d : Point)
    (hd : pts[i]? = some d) :
    ∃ b, bandPos (initXAxis pts) d.type = some b ∧
      (updatePointPositions true false (initXAxis pts) Y rand pts)[i]? =
        some { d with
          x := some (b + ((initXAxis pts).bandwidth / 4 +
                 (initXAxis pts).bandwidth / 2 * rand i)),
          y := some (Y d.value) } ∧
      0 < (initXAxis pts).bandwidth / 4 + (initXAxis pts).bandwidth / 2 * rand i ∧
      (initXAxis pts).bandwidth / 4 + (initXAxis pts).bandwidth / 2 * rand i <
        (initXAxis pts).bandwidth := by
  have hmem : d ∈ pts := by
    obtain ⟨hlt, hEq⟩ := List.getElem?_eq_some.mp hd
    exact hEq ▸ List.getElem_mem hlt
  obtain ⟨b, hb⟩ := bandPos_isSome (initXAxis pts) d.type (type_mem_xLabels pts d hmem)
  have hbw := initXAxis_bandwidth_pos pts
  refine ⟨b, hb, ?_, ?_, ?_⟩
  · rw [updatePointPositions, positionList_getElem? true false (initXAxis pts) Y rand pts 0 i,
      hd, Option.map_some', Nat.zero_add]
    unfold positionPoint
    simp only [Bool.and_false, Bool.false_eq_true, if_false, if_true, hb, Option.map_some']
    have : b + ((initXAxis pts).bandwidth / 4 + (initXAxis pts).bandwidth / 4 * 2 * rand i) =
        b + ((initXAxis pts).bandwidth / 4 + (initXAxis pts).bandwidth / 2 * rand i) := by
      ring
    rw [this]
  · have h2 : 0 ≤ (initXAxis pts).bandwidth / 2 * rand i :=
      mul_nonneg (by linarith) (hr i).1
    linarith
  · have h2 : (initXAxis pts).bandwidth / 2 * rand i < (initXAxis pts).bandwidth / 2 * 1 :=
      mul_lt_mul_of_pos_left (hr i).2 (by linarith)
    linarith

/-- C9 witness at a concrete one-point data set and the constant draw 1/2. -/
theorem C9_jitter_half_band_witness :
    ((∀ n : ℕ, 0 ≤ ((fun _ => (1 : ℚ)/2) n : ℚ) ∧ ((fun _ => (1 : ℚ)/2) n : ℚ) < 1) ∧
      ([samplePoint 5 "IC50"] : List Point)[0]? = some (samplePoint 5 "IC50")) ∧
    ∃ b, bandPos (initXAxis [samplePoint 5 "IC50"]) (samplePoint 5 "IC50").type = some b ∧
      (updatePointPositions true false (initXAxis [samplePoint 5 "IC50"]) (fun q => q)
          (fun _ => (1 : ℚ)/2) [samplePoint 5 "IC50"])[0]? =
        some { samplePoint 5 "IC50" with
          x := some (b + ((initXAxis [samplePoint 5 "IC50"]).bandwidth / 4 +
                 (initXAxis [samplePoint 5 "IC50"]).bandwidth / 2 * ((fun _ => (1 : ℚ)/2) 0))),
          y := some ((fun q => (q : ℚ)) (samplePoint 5 "IC50").value) } ∧
      0 < (initXAxis [samplePoint 5 "IC50"]).bandwidth / 4 +
            (initXAxis [samplePoint 5 "IC50"]).bandwidth / 2 * ((fun _ => (1 : ℚ)/2) 0) ∧
      (initXAxis [samplePoint 5 "IC50"]).bandwidth / 4 +
          (initXAxis [samplePoint 5 "IC50"]).bandwidth / 2 * ((fun _ => (1 : ℚ)/2) 0) <
        (initXAxis [samplePoint 5 "IC50"]).bandwidth :=
  ⟨⟨fun n => ⟨by norm_num, by norm_num⟩, rfl⟩,
   C9_jitter_half_band [samplePoint 5 "IC50"] (fun q => q) (fun _ => (1 : ℚ)/2)
     (fun n => ⟨by norm_num, by norm_num⟩) 0 (samplePoint 5 "IC50") rfl⟩

/-! ## Binning engine claim -/

theorem foldl_minmax_le_left : ∀ (l : List Point) (a b : ℚ),
    (l.foldl minmaxStep (a, b)).1 ≤ a := by
  intro l
  induction l with
  | nil => intro a b; exact le_refl a
  | cons q l2 ih =>
    intro a b
    simp only [List.foldl_cons, minmaxStep]
    exact le_trans (ih _ _) (min_le_left _ _)

theorem foldl_minmax_le_right : ∀ (l : List Point) (a b : ℚ),
    b ≤ (l.foldl minmaxStep (a, b)).2 := by
  intro l
  induction l with
  | nil => intro a b; exact le_refl b
  | cons q l2 ih =>
    intro a b
    simp only [List.foldl_cons, minmaxStep]
    exact le_trans (le_max_left _ _) (ih _ _)

theorem foldl_minmax_mem : ∀ (l : List Point) (a b : ℚ) (q : Point), q ∈ l →
    (l.foldl minmaxStep (a, b)).1 ≤ q.value ∧ q.value ≤ (l.foldl minmaxStep (a, b)).2 := by
  intro l
  induction l with
  | nil => intro a b q hq; cases hq
  | cons r l2 ih =>
    intro a b q hq
    rcases List.mem_cons.mp hq with rfl | hq2
    · constructor
      · simp only [List.foldl_cons, minmaxStep]
        exact le_trans (foldl_minmax_le_left _ _ _) (min_le_right _ _)
      · simp only [List.foldl_cons, minmaxStep]
        exact le_trans (le_max_right _ _) (foldl_minmax_le_right _ _ _)
    · simp only [List.foldl_cons]
      exact ih _ _ q hq2

theorem foldl_minmax_pos : ∀ (l : List Point) (a b : ℚ), 0 < a →
    (∀ q ∈ l, 0 < q.value) → 0 < (l.foldl minmaxStep (a, b)).1 := by
  intro l
  induction l with
  | nil => intro a b ha _; exact ha
  | cons q l2 ih =>
    intro a b ha h
    simp only [List.foldl_cons, minmaxStep]
    exact ih _ _ (lt_min ha (h q (List.mem_cons_self q l2)))
      (fun r hr => h r (List.mem_cons_of_mem q hr))

theorem yDomainRaw_bounds (pts : List Point) (mn mx : ℚ)
    (h : yDomainRaw pts = some (mn, mx)) (hpos : ∀ p ∈ pts, 0 < p.value) :
    0 < mn ∧ ∀ p ∈ pts, mn ≤ p.value ∧ p.value ≤ mx := by
  match pts, h with
  | p :: ps, h =>
    have hfold : ps.foldl minmaxStep (p.value, p.value) = (mn, mx) := by
      have := h
      unfold yDomainRaw at this
      exact Option.some_injective _ this
    have hmn2 : (ps.foldl minmaxStep (p.value, p.value)).1 = mn := by rw [hfold]
    have hmx2 : (ps.foldl minmaxStep (p.value, p.value)).2 = mx := by rw [hfold]
    refine ⟨?_, ?_⟩
    · rw [← hmn2]
      exact foldl_minmax_pos ps p.value p.value
        (hpos p (List.mem_cons_self p ps))
        (fun q hq => hpos q (List.mem_cons_of_mem p hq))
    · intro q hq
      rcases List.mem_cons.mp hq with rfl | hq2
      · constructor
        · rw [← hmn2]; exact foldl_minmax_le_left ps q.value q.value
        · rw [← hmx2]; exact foldl_minmax_le_right ps q.value q.value
      · have hm := foldl_minmax_mem ps p.value p.value q hq2
        rw [hmn2, hmx2] at hm
        exact hm

theorem sum_map_range (f : ℕ → ℕ) : ∀ n, ((List.range n).map f).sum = ∑ i in Finset.range n, f i := by
  intro n
  induction n with
  | zero => rfl
  | succ m ih =>
    rw [List.range_succ, List.map_append, List.sum_append, Finset.sum_range_succ, ih]
    simp

theorem sum_filter_inBin (x0 x1 : ℚ) (tz1 : List ℚ) :
    ∀ (vals : List ℚ), (∀ v ∈ vals, x0 ≤ v ∧ v ≤ x1) →
      (∑ i in Finset.range (tz1.length + 1),
        (vals.filter (inBin x0 x1 tz1 i)).length) = vals.length := by
  intro vals
  induction vals with
  | nil => intro _; simp
  | cons v vs ih =>
    intro h
    have hv := h v (List.mem_cons_self v vs)
    have hvs := fun w hw => h w (List.mem_cons_of_mem v hw)
    have hpt : ∀ i, inBin x0 x1 tz1 i v = (binIndex tz1 v == i) := by
      intro i
      simp [inBin, hv.1, hv.2]
    have hsum : ∀ i ∈ Finset.range (tz1.length + 1),
        ((v :: vs).filter (inBin x0 x1 tz1 i)).length =
          (vs.filter (inBin x0 x1 tz1 i)).length +
            (if binIndex tz1 v = i then 1 else 0) := by
      intro i _
      rw [List.filter_cons, hpt i]
      by_cases hbi : binIndex tz1 v = i
      · simp [hbi]
      · simp [hbi]
    rw [Finset.sum_congr rfl hsum, Finset.sum_add_distrib, ih hvs]
    have hmem : binIndex tz1 v ∈ Finset.range (tz1.length + 1) :=
      Finset.mem_range.mpr (Nat.lt_succ_of_le (List.countP_le_length _))
    rw [Finset.sum_ite_eq (Finset.range (tz1.length + 1)) (binIndex tz1 v) (fun _ => 1),
      if_pos hmem]
    simp

theorem binsFor_conservation (x0 x1 : ℚ) (tz vals : List ℚ)
    (h : ∀ v ∈ vals, x0 ≤ v ∧ v ≤ x1) :
    ((binsFor x0 x1 tz vals).map (fun b => b.2.2.length)).sum = vals.length := by
  unfold binsFor
  rw [List.map_map]
  have hcomp : ((fun b : ℚ × ℚ × List ℚ => b.2.2.length) ∘
      (fun i => (if i = 0 then x0 else (trimThresholds x0 x1 tz).getD (i - 1) x0,
       if i < (trimThresholds x0 x1 tz).length then (trimThresholds x0 x1 tz).getD i x1 else x1,
       vals.filter (inBin x0 x1 (trimThresholds x0 x1 tz) i)))) =
      fun i => (vals.filter (inBin x0 x1 (trimThresholds x0 x1 tz) i)).length := rfl
  rw [hcomp, sum_map_range]
  exact sum_filter_inBin x0 x1 (trimThresholds x0 x1 tz) vals h

/-- C7: binning conserves the points.  For every point set with positive
concentration values, any threshold list, and the y-scale domain produced by
`initYAxis` from the same point set, each entry of `initHistogramBins` (one
per distinct activityType) has bucket lengths summing to the number of points
of that activityType: no point is dropped or duplicated by the binning. -/
theorem C7_bin_conservation (pts : List Point) (x0 x1 : ℚ) (tz : List ℚ)
    (hpos : ∀ p ∈ pts, 0 < p.value)
    (hdom : initYAxisDomain pts = some (x0, x1)) :
    ∀ e ∈ initHistogramBins pts x0 x1 tz,
      (e.2.map (fun b => b.2.2.length)).sum =
        (pts.filter (fun p => p.type == e.1)).length := by
  intro e he
  obtain ⟨t, _, rfl⟩ := List.mem_map.mp he
  obtain ⟨⟨mn, mx⟩, hraw, hnice⟩ : ∃ d, yDomainRaw pts = some d ∧ niceLog d.1 d.2 = (x0, x1) := by
    unfold initYAxisDomain at hdom
    cases hr : yDomainRaw pts with
    | none => rw [hr] at hdom; cases hdom
    | some d =>
      rw [hr] at hdom
      exact ⟨d, rfl, Option.some_injective _ hdom⟩
  obtain ⟨hmn, hbounds⟩ := yDomainRaw_bounds pts mn mx hraw hpos
  have hx0 : x0 ≤ mn := by
    have h1 : x0 = (10 : ℚ) ^ (Int.log 10 mn) := by
      have := congrArg Prod.fst hnice
      simpa [niceLog] using this.symm
    rw [h1]
    exact qzpow_log_le mn hmn
  have hx1 : mx ≤ x1 := by
    have h1 : x1 = (10 : ℚ) ^ (Int.clog 10 mx) := by
      have := congrArg Prod.snd hnice
      simpa [niceLog] using this.symm
    rw [h1]
    exact qle_zpow_clog mx
  have hvals : ∀ v ∈ valuesOfType pts t, x0 ≤ v ∧ v ≤ x1 := by
    intro v hv
    obtain ⟨p, hp, rfl⟩ := List.mem_map.mp hv
    have hb := hbounds p (List.mem_of_mem_filter hp)
    exact ⟨le_trans hx0 hb.1, le_trans hb.2 hx1⟩
  show ((binsFor x0 x1 tz (valuesOfType pts t)).map (fun b => b.2.2.length)).sum = _
  rw [binsFor_conservation x0 x1 tz _ hvals]
  simp [valuesOfType]

/-- C7 witness at a concrete two-point set with values 5 and 50 (nice y-domain
[1, 100]) and the tick thresholds [1, 10, 100]. -/
theorem C7_bin_conservation_witness :
    ((∀ p ∈ [samplePoint 5 "IC50", samplePoint 50 "IC50"], 0 < p.value) ∧
      initYAxisDomain [samplePoint 5 "IC50", samplePoint 50 "IC50"] = some (1, 100)) ∧
    ∀ e ∈ initHistogramBins [samplePoint 5 "IC50", samplePoint 50 "IC50"] 1 100 [1, 10, 100],
      (e.2.map (fun b => b.2.2.length)).sum =
        ([samplePoint 5 "IC50", samplePoint 50 "IC50"].filter
          (fun p => p.type == e.1)).length := by
  have hdom : initYAxisDomain [samplePoint 5 "IC50", samplePoint 50 "IC50"] = some (1, 100) := by
    have hraw : yDomainRaw [samplePoint 5 "IC50", samplePoint 50 "IC50"] = some (5, 50) := by
      decide
    have hlog : Int.log 10 ((5 : ℚ)) = 0 := by
      rw [show (5 : ℚ) = ((5 : ℕ) : ℚ) from by norm_num, Int.log_natCast]
      simp [Nat.log_of_lt]
    have hclog : Int.clog 10 ((50 : ℚ)) = 2 := by
      rw [show (50 : ℚ) = ((50 : ℕ) : ℚ) from by norm_num, Int.clog_natCast]
      have h : Nat.clog 10 50 = 2 := le_antisymm
        ((Nat.le_pow_iff_clog_le (by norm_num)).mp (by norm_num))
        ((Nat.pow_lt_iff_lt_clog (by norm_num)).mp (by norm_num))
      rw [h]
      norm_num
    unfold initYAxisDomain
    rw [hraw, Option.map_some']
    show some (niceLog 5 50) = some (1, 100)
    unfold niceLog
    rw [hlog, hclog]
    norm_num
  exact ⟨⟨by decide, hdom⟩,
    C7_bin_conservation [samplePoint 5 "IC50", samplePoint 50 "IC50"] 1 100 [1, 10, 100]
      (by decide) hdom⟩

/-! ## Classification first-match claim (C1) -/

theorem find?_prefix_mid {α : Type} (p : α → Bool) (pre post : List α) (e : α)
    (he : p e = true) :
    (pre ++ e :: post).find? p = some ((pre.find? p).getD e) := by
  rw [List.find?_append]
  cases hp : pre.find? p with
  | none => simp [List.find?_cons_of_pos _ he, Option.or]
  | some a => simp [Option.or]

theorem mapSet_overwrite_decomp (k v : String) :
    ∀ (m : Table), m.any (fun kv => kv.1 == k) = true →
      ∃ pre post, m.map (fun kv => if kv.1 == k then (kv.1, v) else kv) =
        pre ++ (k, v) :: post ∧ ∀ e ∈ pre, e.1 ≠ k := by
  intro m
  induction m with
  | nil => intro h; cases h
  | cons kv0 rest ih =>
    intro h
    by_cases h0 : (kv0.1 == k) = true
    · refine ⟨[], rest.map (fun kv => if kv.1 == k then (kv.1, v) else kv), ?_, by simp⟩
      have hk0 : kv0.1 = k := by simpa using h0
      simp [h0, hk0]
    · have hrest : rest.any (fun kv => kv.1 == k) = true := by
        rcases List.any_eq_true.mp h with ⟨e, he, hek⟩
        rcases List.mem_cons.mp he with rfl | he2
        · exact absurd hek h0
        · exact List.any_eq_true.mpr ⟨e, he2, hek⟩
      obtain ⟨pre, post, heq, hpre⟩ := ih hrest
      refine ⟨kv0 :: pre, post, ?_, ?_⟩
      · simp only [List.map_cons, h0, if_false, Bool.false_eq_true]
        rw [heq]
        rfl
      · intro e he
        rcases List.mem_cons.mp he with rfl | he2
        · simpa using h0
        · exact hpre e he2

theorem mapSet_decomp (m : Table) (k v : String) :
    ∃ pre post, mapSet m k v = pre ++ (k, v) :: post ∧ ∀ e ∈ pre, e.1 ≠ k := by
  unfold mapSet
  by_cases h : m.any (fun kv => kv.1 == k) = true
  · rw [if_pos h]
    exact mapSet_overwrite_decomp k v m h
  · rw [if_neg h]
    refine ⟨m, [], rfl, ?_⟩
    intro e he hek
    exact h (List.any_eq_true.mpr ⟨e, he, by simp [hek]⟩)

/-- C1: first-match-in-insertion-order.  After adding the rule (K, V) with
`Map.set` (which keeps the position of an existing K entry and appends a new
one), the table splits as pre ++ (K, V) :: post with no K key in pre (the
entries ordered before K's entry).  For a point whose scanned own-property
values include K, the resolved color (resp. shape) is V, unless some entry of
pre also has its match key among the point's scanned values, in which case
the first such earlier entry's visual value is returned — this holds for both
the color table and the shape table. -/
theorem C1_first_match_precedence (t : Table) (K V : String) (p : Point) :
    (JSVal.str K ∈ colorScanValues (mapSet t K V) p →
      ∃ pre post,
        mapSet t K V = pre ++ (K, V) :: post ∧
        (∀ e ∈ pre, e.1 ≠ K) ∧
        (assignColor (mapSet t K V) p).color =
          some (((pre.find? (matchesValues (colorScanValues (mapSet t K V) p))).getD
            (K, V)).2)) ∧
    (JSVal.str K ∈ shapeScanValues (mapSet t K V) p →
      ∃ pre post,
        mapSet t K V = pre ++ (K, V) :: post ∧
        (∀ e ∈ pre, e.1 ≠ K) ∧
        (assignShape (mapSet t K V) p).shape =
          some (((pre.find? (matchesValues (shapeScanValues (mapSet t K V) p))).getD
            (K, V)).2)) := by
  obtain ⟨pre, post, heq, hpre⟩ := mapSet_decomp t K V
  constructor
  · intro hK
    refine ⟨pre, post, heq, hpre, ?_⟩
    rw [assignColor_color, heq]
    have hmatch : matchesValues (colorScanValues (pre ++ (K, V) :: post) p) (K, V) = true := by
      rw [← heq]
      exact List.any_eq_true.mpr ⟨JSVal.str K, hK, by simp⟩
    unfold scanMap
    rw [find?_prefix_mid _ pre post (K, V) hmatch]
    simp [Option.or]
  · intro hK
    refine ⟨pre, post, heq, hpre, ?_⟩
    rw [assignShape_shape, heq]
    have hmatch : matchesValues (shapeScanValues (pre ++ (K, V) :: post) p) (K, V) = true := by
      rw [← heq]
      exact List.any_eq_true.mpr ⟨JSVal.str K, hK, by simp⟩
    unfold scanMap
    rw [find?_prefix_mid _ pre post (K, V) hmatch]
    simp [Option.or]

/-- C1 witness: adding the rule IC50 to bright red on top of the initial
color table, then resolving a point of type IC50; and the shape analogue. -/
theorem C1_first_match_precedence_witness :
    (JSVal.str "IC50" ∈
        colorScanValues (mapSet [("Default", "#C0C0C0")] "IC50" "#FF0000")
          (samplePoint 5 "IC50") ∧
      ∃ pre post,
        mapSet [("Default", "#C0C0C0")] "IC50" "#FF0000" = pre ++ ("IC50", "#FF0000") :: post ∧
        (∀ e ∈ pre, e.1 ≠ "IC50") ∧
        (assignColor (mapSet [("Default", "#C0C0C0")] "IC50" "#FF0000")
            (samplePoint 5 "IC50")).color =
          some (((pre.find? (matchesValues
            (colorScanValues (mapSet [("Default", "#C0C0C0")] "IC50" "#FF0000")
              (samplePoint 5 "IC50")))).getD ("IC50", "#FF0000")).2)) ∧
    (JSVal.str "IC50" ∈
        shapeScanValues (mapSet [("Default", "Circle")] "IC50" "Star")
          (samplePoint 5 "IC50") ∧
      ∃ pre post,
        mapSet [("Default", "Circle")] "IC50" "Star" = pre ++ ("IC50", "Star") :: post ∧
        (∀ e ∈ pre, e.1 ≠ "IC50") ∧
        (assignShape (mapSet [("Default", "Circle")] "IC50" "Star")
            (samplePoint 5 "IC50")).shape =
          some (((pre.find? (matchesValues
            (shapeScanValues (mapSet [("Default", "Circle")] "IC50" "Star")
              (samplePoint 5 "IC50")))).getD ("IC50", "Star")).2)) :=
  ⟨⟨by decide,
    (C1_first_match_precedence [("Default", "#C0C0C0")] "IC50" "#FF0000"
      (samplePoint 5 "IC50")).1 (by decide)⟩,
   ⟨by decide,
    (C1_first_match_precedence [("Default", "Circle")] "IC50" "Star"
      (samplePoint 5 "IC50")).2 (by decide)⟩⟩

end BioActivity
